import Mathlib

/-!
# Verification of the argparser library against its specification

This file is a shallow embedding, in Lean 4, of the parsing and
option-resolution engine of the argparser command line argument parser
library, together with proofs and refutations of the claims made by the
library's natural-language specification.

The repository ships several near-identical implementations of one design.
Two of them are embedded here in full:

* `ArgParser.*` — the managed OOP variant (class `ArgParser`): option
  registry, name map (a hash map, modelled as an association list with
  replace-or-append insertion and first-match lookup), the parse state
  machine, the alternatives resolver `supportAlternatives`, and
  `testExclusiveness`.
* `C.*` — the systems-language variant (`argparser.c`): the nibble-keyed
  trie map `map_get`/`map_put`, the `args_opts` result store layered on
  that map, option registration and `args_parse`.

In addition `args_standard_abbreviations` embeds the standard abbreviation
expander of the rewritten library core.

The diagnostic sink is modelled as a list of emitted lines (`out`); each
`fprintf`/`println` producing one line of warning text appends one string.
-/

/-- Kind of a declared option: the OOP variant distinguishes the classes
`Argumentless`, `Argumented` and `Variadic` (`Variadic` extends
`Argumented`). -/
inductive JKind where
  | argumentless
  | argumented
  | variadic
deriving DecidableEq, Repr

/-- The option class of the OOP variant: alternative spellings, the
designated standard spelling, the argument display name and the help
text (`none` = hidden). -/
structure JOpt where
  kind : JKind
  alternatives : List String
  standard : String
  argument : String
  help : Option String
deriving DecidableEq, Repr

/-- `Option(alternatives, standard, argument)` constructor: a negative
standard index counts from the end (`alternatives[length + standard]`),
and a `null` argument name defaults to `"ARG"`. -/
def JOpt.make (kind : JKind) (alternatives : List String) (standard : Int)
    (argument : Option String) : JOpt :=
  let i : Int := if standard < 0 then (alternatives.length : Int) + standard else standard
  { kind := kind
    alternatives := alternatives
    standard := alternatives.getD i.toNat ""
    argument := argument.getD "ARG"
    help := none }

/-- First-match lookup in an association list, the behaviour of
`HashMap.get` for the maps built by this library. -/
def hmGet (m : List (String × α)) (k : String) : Option α :=
  match m with
  | [] => none
  | (k', v) :: rest => if k' == k then some v else hmGet rest k

/-- `HashMap.put`: replace the binding of `k` if present, otherwise append
a new binding (insertion order is kept for iteration). -/
def hmPut (m : List (String × α)) (k : String) (v : α) : List (String × α) :=
  match m with
  | [] => [(k, v)]
  | (k', v') :: rest => if k' == k then (k, v) :: rest else (k', v') :: hmPut rest k v

/-- The parser object of the OOP variant.  `opts` maps a spelling to
`none` (Java `null`, declared but unused) or to the array of collected
values, each value being `none` (the no-value sentinel) or a string. -/
structure ArgParser where
  program : String
  options : List JOpt
  optmap : List (String × JOpt)
  opts : List (String × Option (List (Option String)))
  files : List String
  message : Option String
  unrecognisedCount : Nat
  arguments : List String
  out : List String
deriving DecidableEq, Repr

/-- A fresh parser (constructor with a fixed program name; the
TERM/stderr plumbing is irrelevant to the core and not modelled). -/
def ArgParser.init (program : String) : ArgParser :=
  { program := program, options := [], optmap := [], opts := [],
    files := [], message := none, unrecognisedCount := 0,
    arguments := [], out := [] }

/-- `opts.get(name)` as used throughout the source: `null` both when the
key is absent and when the stored array is `null`. -/
def ArgParser.optsGet (p : ArgParser) (name : String) : Option (List (Option String)) :=
  (hmGet p.opts name).getD none

/-- `add(option, help)`: record the option, register every alternative in
the name map, and seed `opts[standard] = null`. -/
def ArgParser.add (p : ArgParser) (opt : JOpt) (help : Option String) : ArgParser :=
  let o := { opt with help := help }
  { p with
    options := p.options ++ [o]
    optmap := o.alternatives.foldl (fun m alt => hmPut m alt o) p.optmap
    opts := hmPut p.opts o.standard none }

/-- State of the scan loop of `parse`: the parser object plus the local
variables `get`, `dontget`, `dashed`, `tmpdashed`, `rc`, `optqueue` and
`argqueue` (`argqueue` holds nullable strings). -/
structure ScanSt where
  ps : ArgParser
  get : Nat
  dontget : Nat
  dashed : Bool
  tmpdashed : Bool
  rc : Bool
  optqueue : List String
  argqueue : List (Option String)
deriving DecidableEq, Repr

/-- The warning line printed for an unrecognised option token. -/
def warnLine (program arg : String) : String :=
  program ++ ": warning: unrecognised option " ++ arg

/-- `if (++unrecognisedCount <= 5) println(warning)` followed by
`rc = false`. -/
def ScanSt.unrec (st : ScanSt) (arg : String) : ScanSt :=
  let c := st.ps.unrecognisedCount + 1
  { st with
    ps := { st.ps with
      unrecognisedCount := c
      out := if c ≤ 5 then st.ps.out ++ [warnLine st.ps.program arg] else st.ps.out }
    rc := false }

/-- The short-option cluster walk: each remaining character `c` forms the
two-character spelling `sign + c`; argumentless options continue the walk,
an argumented option consumes the remaining characters as a sticky value
(or pends one `get`) and stops, a variadic option consumes the remaining
characters (or a no-value sentinel) and switches to `dashed`; unknown
spellings are reported as unrecognised (citing the whole token) and the
walk continues. -/
def clusterLoop (st : ScanSt) (sign : Char) (arg : String) : List Char → ScanSt
  | [] => st
  | c :: rest =>
    let narg := String.mk [sign, c]
    match hmGet st.ps.optmap narg with
    | some o =>
      match o.kind with
      | .argumentless =>
        clusterLoop
          { st with optqueue := st.optqueue ++ [narg], argqueue := st.argqueue ++ [none] }
          sign arg rest
      | .argumented =>
        if rest.isEmpty then
          { st with optqueue := st.optqueue ++ [narg], get := st.get + 1 }
        else
          { st with optqueue := st.optqueue ++ [narg],
                    argqueue := st.argqueue ++ [some (String.mk rest)] }
      | .variadic =>
        { st with optqueue := st.optqueue ++ [narg],
                  argqueue := st.argqueue ++
                    [if rest.isEmpty then none else some (String.mk rest)],
                  dashed := true }
    | none => clusterLoop (st.unrec arg) sign arg rest

/-- One long-form token (`--x…`/`++x…`, second character equal to the
first): argumentless lookup first, then `=`-splitting, then argumented
and variadic lookup, otherwise unrecognised. -/
def longStep (st : ScanSt) (arg : String) : ScanSt :=
  if st.dontget > 0 then { st with dontget := st.dontget - 1 }
  else
    match hmGet st.ps.optmap arg with
    | some o =>
      if o.kind = .argumentless then
        { st with optqueue := st.optqueue ++ [arg], argqueue := st.argqueue ++ [none] }
      else if arg.data.contains '=' then longEq st arg
      else if o.kind = .argumented then
        { st with optqueue := st.optqueue ++ [arg], get := st.get + 1 }
      else
        { st with optqueue := st.optqueue ++ [arg], argqueue := st.argqueue ++ [none],
                  dashed := true }
    | none =>
      if arg.data.contains '=' then longEq st arg
      else st.unrec arg
where
  /-- `name=value` splitting at the first `=`. -/
  longEq (st : ScanSt) (arg : String) : ScanSt :=
    let name := String.mk (arg.data.takeWhile (fun c => c != '='))
    let value := String.mk ((arg.data.dropWhile (fun c => c != '=')).drop 1)
    match hmGet st.ps.optmap name with
    | some o2 =>
      if o2.kind = .argumented ∨ o2.kind = .variadic then
        let st := { st with optqueue := st.optqueue ++ [name],
                            argqueue := st.argqueue ++ [some value] }
        if o2.kind = .variadic then { st with dashed := true } else st
      else st.unrec arg
    | none => st.unrec arg

/-- Classification of one raw token, in the precedence order of the
source: pending value consumption, `tmpdashed`, `dashed`, `"++"`, `"--"`,
sigil-prefixed tokens (long form when longer than two characters with a
doubled sigil, otherwise a short cluster), and lastly the bare-file
branch. -/
def scanStep (st : ScanSt) (arg : String) : ScanSt :=
  if st.get > 0 ∧ st.dontget = 0 then
    { st with get := st.get - 1, argqueue := st.argqueue ++ [some arg] }
  else if st.tmpdashed then
    { st with ps := { st.ps with files := st.ps.files ++ [arg] }, tmpdashed := false }
  else if st.dashed then
    { st with ps := { st.ps with files := st.ps.files ++ [arg] } }
  else if arg == "++" then { st with tmpdashed := true }
  else if arg == "--" then { st with dashed := true }
  else
    match arg.data with
    | c0 :: c1 :: rest =>
      if c0 = '-' ∨ c0 = '+' then
        if rest ≠ [] ∧ c1 = c0 then longStep st arg
        else clusterLoop st c0 arg (c1 :: rest)
      else { st with ps := { st.ps with files := st.ps.files ++ [arg] } }
    | _ => { st with ps := { st.ps with files := st.ps.files ++ [arg] } }

/-- The main scan loop of `parse`. -/
def scanLoop (st : ScanSt) : List String → ScanSt
  | [] => st
  | arg :: queue => scanLoop (scanStep st arg) queue

/-- The store loop of `parse`: each queued spelling is resolved to its
standard spelling; a `null` entry is replaced by an empty array; when a
parallel `argqueue` entry exists it is appended (it may itself be the
no-value sentinel). -/
def storeLoop (optmap : List (String × JOpt)) :
    List (String × Option (List (Option String))) → List String →
    List (Option String) → List (String × Option (List (Option String)))
  | opts, [], _ => opts
  | opts, q :: qs, args =>
    let opt := match hmGet optmap q with
      | some o => o.standard
      | none => ""  -- unreachable: every queued spelling was found in the map
    let opts := if (hmGet opts opt).getD none = none
      then hmPut opts opt (some []) else opts
    match args with
    | a :: as =>
      let cur := (hmGet opts opt).getD none |>.getD []
      storeLoop optmap (hmPut opts opt (some (cur ++ [a]))) qs as
    | [] => storeLoop optmap opts qs []

/-- The post-scan variadic finalisation: the first variadic option whose
standard spelling has a non-`null` entry absorbs every bare file as an
additional value — a recorded no-value first element (`varopt[0] == null`)
is dropped together with the rest of the array — and the file list is
cleared.  (`varopt[0]` on an empty array would throw in the source; that
state is unreachable from a parse and is modelled by `headD none`.) -/
def jfinalize (opts : List (String × Option (List (Option String))))
    (files : List String) :
    List JOpt → List (String × Option (List (Option String))) × List String
  | [] => (opts, files)
  | o :: rest =>
    if o.kind = .variadic then
      match (hmGet opts o.standard).getD none with
      | some vs =>
        let additional := files.map some
        if vs.headD none = none then (hmPut opts o.standard (some additional), [])
        else (hmPut opts o.standard (some (vs ++ additional)), [])
      | none => jfinalize opts files rest
    else jfinalize opts files rest

/-- The line summarising unrecognised options beyond the fifth. -/
def summaryLine (program : String) (more : Nat) : String :=
  program ++ ": warning: " ++ toString more ++ " more unrecognised " ++
    (if more = 1 then "option" else "options")

/-- `parse(argv)` of the OOP variant: scan, store, variadic finalisation,
message synthesis and the post-scan summary; returns the updated parser
and whether no unrecognised option was used. -/
def ArgParser.parse (p : ArgParser) (argv : List String) : ArgParser × Bool :=
  let p := { p with arguments := argv }
  let st := scanLoop
    { ps := p, get := 0, dontget := 0, dashed := false, tmpdashed := false,
      rc := true, optqueue := [], argqueue := [] } argv
  let p := st.ps
  let p := { p with opts := storeLoop p.optmap p.opts st.optqueue st.argqueue }
  let fin := jfinalize p.opts p.files p.options
  let p := { p with opts := fin.1, files := fin.2 }
  let p := { p with message := (if p.files.isEmpty then p.message
    else some (String.intercalate " " p.files)) }
  let p := { p with out := (if p.unrecognisedCount > 5
    then p.out ++ [summaryLine p.program (p.unrecognisedCount - 5)]
    else p.out) }
  (p, st.rc)

/-- `supportAlternatives()`: for every spelling in the name map (in
iteration order), `opts.put(spelling, opts.get(optmap.get(spelling).standard))`. -/
def saFold (optmap : List (String × JOpt)) :
    List String → List (String × Option (List (Option String))) →
    List (String × Option (List (Option String)))
  | [], opts => opts
  | s :: rest, opts =>
    let std := match hmGet optmap s with
      | some o => o.standard
      | none => ""  -- unreachable: iterating the keys of the very same map
    saFold optmap rest (hmPut opts s ((hmGet opts std).getD none))

/-- `supportAlternatives()` on the parser object. -/
def ArgParser.supportAlternatives (p : ArgParser) : ArgParser :=
  { p with opts := saFold p.optmap (p.optmap.map Prod.fst) p.opts }

/-- The spellings collected by `testExclusiveness`: keys of `opts` whose
entry is non-`null` and which belong to the exclusive set, in map
iteration order. -/
def usedExcl (opts : List (String × Option (List (Option String))))
    (exclusives : List String) : List String :=
  (opts.filter (fun kv => kv.2.isSome && exclusives.contains kv.1)).map Prod.fst

/-- The combined conflict line: each violator, followed by its standard
spelling in parentheses when the used spelling differs. -/
def conflictMsg (program : String) (optmap : List (String × JOpt))
    (used : List String) : String :=
  program ++ ": conflicting options:" ++ String.join (used.map (fun opt =>
    let std := match hmGet optmap opt with
      | some o => o.standard
      | none => ""  -- unreachable: every opts key is registered in the map
    if std == opt then " " ++ opt else " " ++ opt ++ "(" ++ std ++ ")"))

/-- `testExclusiveness(exclusives)`: collect the used spellings from the
set; when more than one is found, print one combined conflict line and
return `false`. -/
def ArgParser.testExclusiveness (p : ArgParser) (exclusives : List String) :
    Bool × ArgParser :=
  let used := usedExcl p.opts exclusives
  if used.length > 1 then
    (false, { p with out := p.out ++ [conflictMsg p.program p.optmap used] })
  else (true, p)

/-!
## The systems-language variant (`argparser.c`)

Machine integers of the source (`long` counters, indices) stay within
tiny ranges here and are modelled as `Nat`/`Int`.  The nibble trie of
`args_Map` alternates between 17-slot levels (16 children plus a value
slot) and 16-slot levels; both are modelled by one node type whose
children list has the fixed length of the corresponding `malloc`.
Out-of-range list reads (undefined behaviour in the source) yield the
`getD` defaults and are marked below where they would occur.
-/

namespace C

/-- A trie level: `vnode` is a 17-slot level (children indexed by a
nibble, plus the value slot 16), `anode` a 16-slot level. -/
inductive CNode (α : Type) : Type where
  | vnode (children : List (Option (CNode α))) (value : Option α) : CNode α
  | anode (children : List (Option (CNode α))) : CNode α

/-- A fresh 16-slot level (`malloc(16)` with all slots nulled). -/
def emptyA {α : Type} : CNode α := .anode (List.replicate 16 none)

/-- A fresh 17-slot level (`malloc(17)` with all slots nulled). -/
def emptyV {α : Type} : CNode α := .vnode (List.replicate 16 none) none

/-- High nibble of a key character. -/
def hiNib (c : Char) : Nat := c.toNat / 16 % 16

/-- Low nibble of a key character. -/
def loNib (c : Char) : Nat := c.toNat % 16

/-- `map_get` descends, per key character, first by the high nibble and
then by the low nibble, returning `null` as soon as a slot is missing;
the value sits in slot 16 of the final level. -/
def cmapGet {α : Type} : CNode α → List Char → Option α
  | .vnode _ v, [] => v
  | .anode _, [] => none  -- unreachable: levels alternate, keys end on a 17-slot level
  | .vnode ch _, c :: rest =>
    match ch.getD (hiNib c) none with
    | none => none
    | some na =>
      match na with
      | .anode ch2 =>
        match ch2.getD (loNib c) none with
        | none => none
        | some nb => cmapGet nb rest
      | .vnode _ _ => none  -- unreachable: levels alternate
  | .anode _, _ :: _ => none  -- unreachable: levels alternate

/-- `map_put` descends like `map_get`, creating missing levels; the source
stores a freshly created low-nibble level at slot `hiNib c` of the
16-slot level (`*(at + a) = malloc(17)`) instead of slot `loNib c`.
Returns the updated node and whether any level was created (`new`). -/
def cmapPut {α : Type} : CNode α → List Char → α → CNode α × Bool
  | .vnode ch _, [], v => (.vnode ch (some v), false)
  | .anode ch, [], _ => (.anode ch, false)  -- unreachable: levels alternate
  | .vnode ch val, c :: rest, v =>
    let a := hiNib c
    let b := loNib c
    let na := (ch.getD a none).getD emptyA
    let new1 := (ch.getD a none).isNone
    match na with
    | .anode ch2 =>
      match ch2.getD b none with
      | some nb =>
        let r := cmapPut nb rest v
        (.vnode (ch.set a (some (.anode (ch2.set b (some r.1))))) val, new1 || r.2)
      | none =>
        let r := cmapPut emptyV rest v
        -- the new level is linked at slot `a`, as in the source
        (.vnode (ch.set a (some (.anode (ch2.set a (some r.1))))) val, true)
    | .vnode _ _ => (.vnode ch val, false)  -- unreachable: levels alternate
  | .anode ch, _ :: _, _ => (.anode ch, false)  -- unreachable: levels alternate

/-- In-place update of the value reached by the `map_get` traversal
(used to model mutation of an object previously returned by `map_get`). -/
def cmapUpdate {α : Type} : CNode α → List Char → (α → α) → CNode α
  | .vnode ch v, [], f => .vnode ch (v.map f)
  | .anode ch, [], _ => .anode ch
  | .vnode ch v, c :: rest, f =>
    match ch.getD (hiNib c) none with
    | none => .vnode ch v
    | some na =>
      match na with
      | .anode ch2 =>
        match ch2.getD (loNib c) none with
        | none => .vnode ch v
        | some nb =>
          .vnode (ch.set (hiNib c)
            (some (.anode (ch2.set (loNib c) (some (cmapUpdate nb rest f)))))) v
      | .vnode _ _ => .vnode ch v
  | .anode ch, _ :: _, _ => .anode ch

/-- `args_Map`: the trie root plus the key list and its count. -/
structure CMap (α : Type) where
  keys : List String
  key_count : Nat
  data : CNode α

/-- `map_init`: a nulled 17-slot root, no keys. -/
def mapInit {α : Type} : CMap α := { keys := [], key_count := 0, data := emptyV }

/-- `map_get` on an `args_Map`. -/
def map_get {α : Type} (m : CMap α) (key : String) : Option α :=
  cmapGet m.data key.data

/-- `map_put` on an `args_Map`: on a fresh key the source reallocates
`keys` to hold one more element but stores nothing in it and leaves
`key_count` unchanged, so the key list is not extended. -/
def map_put {α : Type} (m : CMap α) (key : String) (v : α) : CMap α :=
  let r := cmapPut m.data key.data v
  { m with data := r.1 }

/-- `args_Array`: a value array (`null` allowed) with a separate count.
`args_opts_put` leaves `count` uninitialised in the source; it is
modelled as `0` (it is never read before `args_opts_put_count` on any
path exercised below). -/
structure CArray where
  values : Option (List (Option String))
  count : Nat

/-- The option structure of the C variant. -/
structure COption where
  type : Nat  -- ARGUMENTLESS = 0, ARGUMENTED = 1, VARIADIC = 2
  alternatives : List String
  standard : String
  argument : String
  help : Option String

/-- Fallback for reads of `args_options` at a negative index
(`args_optmap_get_index` returned "not found"); such reads are undefined
behaviour in the source and unreachable in the evaluations below. -/
def noOption : COption :=
  { type := 0, alternatives := [], standard := "", argument := "", help := none }

/-- `args_new_argumentless`/`args_new_argumented`/`args_new_variadic`:
a negative standard index counts from the end; a `null` argument name
defaults to `"ARG"` (`"NOTHING"` for argumentless options). -/
def newOption (type : Nat) (argument : Option String) (standard : Int)
    (alternatives : List String) : COption :=
  let i : Int := if standard < 0 then (alternatives.length : Int) + standard else standard
  { type := type
    alternatives := alternatives
    standard := alternatives.getD i.toNat ""
    argument := if type = 0 then "NOTHING" else argument.getD "ARG"
    help := none }

/-- The module-level state of the C variant. -/
structure CState where
  program : String
  options : List COption
  optmap : CMap Nat  -- stores index + 1, so that `null` reads as index -1
  opts : CMap CArray
  files : List String
  message : Option String
  unrecognised_count : Nat
  arguments : List String
  out : List String

/-- `args_init` (the TERM sniffing and parent-name lookup are external
collaborators and not modelled). -/
def args_init (program : String) : CState :=
  { program := program, options := [], optmap := mapInit, opts := mapInit,
    files := [], message := none, unrecognised_count := 0, arguments := [],
    out := [] }

/-- `args_optmap_put(name, index)` stores `index + 1`. -/
def args_optmap_put (st : CState) (name : String) (index : Nat) : CState :=
  { st with optmap := map_put st.optmap name (index + 1) }

/-- `args_optmap_get_index`: the stored value minus one, `-1` when absent. -/
def args_optmap_get_index (st : CState) (name : String) : Int :=
  match map_get st.optmap name with
  | none => -1
  | some v => (v : Int) - 1

/-- `args_optmap_contains`. -/
def args_optmap_contains (st : CState) (name : String) : Bool :=
  args_optmap_get_index st name ≥ 0

/-- `args_optmap_get_type`. -/
def args_optmap_get_type (st : CState) (name : String) : Nat :=
  (st.options.getD (args_optmap_get_index st name).toNat noOption).type

/-- `args_optmap_get_standard`. -/
def args_optmap_get_standard (st : CState) (name : String) : String :=
  (st.options.getD (args_optmap_get_index st name).toNat noOption).standard

/-- `args_opts_put(name, values)`: mutate the array object found by
`map_get`, or create a fresh one (count uninitialised) and `map_put` it. -/
def args_opts_put (st : CState) (name : String) (values : Option (List (Option String))) :
    CState :=
  match map_get st.opts name with
  | none => { st with opts := map_put st.opts name { values := values, count := 0 } }
  | some _ =>
    { st with opts := { st.opts with
        data := cmapUpdate st.opts.data name.data (fun arr => { arr with values := values }) } }

/-- `args_opts_put_count(name, count)`. -/
def args_opts_put_count (st : CState) (name : String) (count : Nat) : CState :=
  match map_get st.opts name with
  | none => { st with opts := map_put st.opts name { values := none, count := count } }
  | some _ =>
    { st with opts := { st.opts with
        data := cmapUpdate st.opts.data name.data (fun arr => { arr with count := count }) } }

/-- `args_opts_get`: the stored values, `null` when the key is absent. -/
def args_opts_get (st : CState) (name : String) : Option (List (Option String)) :=
  match map_get st.opts name with
  | none => none
  | some arr => arr.values

/-- `args_opts_get_count`. -/
def args_opts_get_count (st : CState) (name : String) : Nat :=
  match map_get st.opts name with
  | none => 0
  | some arr => arr.count

/-- `args_opts_contains`. -/
def args_opts_contains (st : CState) (name : String) : Bool :=
  (map_get st.opts name).isSome

/-- `args_opts_new`: `values = null`, `count = 0`. -/
def args_opts_new (st : CState) (name : String) : CState :=
  args_opts_put_count (args_opts_put st name none) name 0

/-- `args_opts_append(name, value)`: write `value` at index `count`
(the element count is tracked separately from the array) and bump the
count. -/
def args_opts_append (st : CState) (name : String) (value : Option String) : CState :=
  let size := args_opts_get_count st name + 1
  let values := args_opts_get st name
  let st := match values with
    | none => args_opts_put st name (some [value])
    | some vs =>
      -- realloc to `size` elements with slot `size - 1` set to `value`
      args_opts_put st name (some ((vs.take (size - 1) ++
        List.replicate (size - 1 - vs.length) none) ++ [value]))
  args_opts_put_count st name size

/-- `args_opts_used`. -/
def args_opts_used (st : CState) (name : String) : Bool :=
  args_opts_get_count st name > 0

/-- `args_add_option(option, help)`: register every alternative in the
option map, seed `opts[standard]` with `null` values and count `0`, and
append the option. -/
def args_add_option (st : CState) (opt : COption) (help : Option String) : CState :=
  let idx := st.options.length
  let st := opt.alternatives.foldl (fun s alt => args_optmap_put s alt idx) st
  let st := args_opts_put st opt.standard none
  let st := args_opts_put_count st opt.standard 0
  { st with options := st.options ++ [{ opt with help := help }] }

end C

namespace C

/-- Scan-loop state of `args_parse`: the module state plus the local
variables of the loop. -/
structure CScan where
  st : CState
  get : Nat
  dontget : Nat
  dashed : Bool
  tmpdashed : Bool
  rc : Bool
  optqueue : List String
  argqueue : List (Option String)

/-- `++args_unrecognised_count`, the rate-limited warning and `rc = false`. -/
def CScan.unrec (s : CScan) (arg : String) : CScan :=
  let c := s.st.unrecognised_count + 1
  { s with
    st := { s.st with
      unrecognised_count := c
      out := if c ≤ 5 then s.st.out ++ [warnLine s.st.program arg] else s.st.out }
    rc := false }

/-- The short-cluster walk of `args_parse` (single leading sigil): each
character forms the spelling `sign + char`; unknown spellings warn with
the whole token and the walk continues. -/
def cClusterLoop (s : CScan) (sign : Char) (arg : String) : List Char → CScan
  | [] => s
  | c :: rest =>
    let narg := String.mk [sign, c]
    if args_optmap_contains s.st narg then
      let type := args_optmap_get_type s.st narg
      let s := { s with optqueue := s.optqueue ++ [narg] }
      if type = 0 then
        cClusterLoop { s with argqueue := s.argqueue ++ [none] } sign arg rest
      else if type = 1 then
        if rest ≠ [] then { s with argqueue := s.argqueue ++ [some (String.mk rest)] }
        else { s with get := s.get + 1 }
      else
        { s with
          argqueue := s.argqueue ++ [if rest ≠ [] then some (String.mk rest) else none],
          dashed := true }
    else cClusterLoop (s.unrec arg) sign arg rest

/-- The long-form branch of `args_parse` (doubled sigil): an unknown
whole token warns immediately; for a known token, argumentless queues a
no-value use, a token containing `=` splits into `name=value` (requiring
`name` to be a known argumented or variadic option), an argumented token
pends one value and a variadic token queues a no-value use and dashes. -/
def cLongStep (s : CScan) (arg : String) : CScan :=
  if s.dontget > 0 then { s with dontget := s.dontget - 1 }
  else if ¬ args_optmap_contains s.st arg then s.unrec arg
  else
    let type := args_optmap_get_type s.st arg
    if type = 0 then
      { s with optqueue := s.optqueue ++ [arg], argqueue := s.argqueue ++ [none] }
    else if arg.data.contains '=' then
      let arg_opt := String.mk (arg.data.takeWhile (fun c => c != '='))
      let value := String.mk ((arg.data.dropWhile (fun c => c != '=')).drop 1)
      if args_optmap_contains s.st arg_opt ∧ args_optmap_get_type s.st arg_opt ≥ 1 then
        let s := { s with optqueue := s.optqueue ++ [arg_opt],
                          argqueue := s.argqueue ++ [some value] }
        if args_optmap_get_type s.st arg_opt = 2 then { s with dashed := true } else s
      else s.unrec arg
    else if type = 1 then
      { s with optqueue := s.optqueue ++ [arg], get := s.get + 1 }
    else
      { s with optqueue := s.optqueue ++ [arg], argqueue := s.argqueue ++ [none],
               dashed := true }

/-- One token of the scan loop of `args_parse`.  A token that carries no
sigil (or is a lone `-`/`+`) falls through to the final `else`, which
reports it as an unrecognised option instead of adding it to the file
list. -/
def cScanStep (s : CScan) (arg : String) : CScan :=
  if s.get > 0 ∧ s.dontget = 0 then
    { s with get := s.get - 1, argqueue := s.argqueue ++ [some arg] }
  else if s.tmpdashed then
    { s with st := { s.st with files := s.st.files ++ [arg] }, tmpdashed := false }
  else if s.dashed then
    { s with st := { s.st with files := s.st.files ++ [arg] } }
  else if arg == "++" then { s with tmpdashed := true }
  else if arg == "--" then { s with dashed := true }
  else
    match arg.data with
    | c0 :: c1 :: _ =>
      if c0 = '-' ∨ c0 = '+' then
        if c1 = c0 then cLongStep s arg
        else cClusterLoop s c0 arg (arg.data.drop 1)
      else (s.unrec arg)
    | _ => s.unrec arg

/-- The scan loop of `args_parse`. -/
def cScanLoop (s : CScan) : List String → CScan
  | [] => s
  | arg :: rest => cScanLoop (cScanStep s arg) rest

/-- The store loop of `args_parse`; `argn` is the number of `argqueue`
entries not yet paired (`argptr - i`).  The source pairs each queued
spelling with `*(optqueue + i)` — the spelling itself — instead of
`*(argqueue + i)`. -/
def cStoreLoop (st : CState) : List String → Nat → CState
  | [], _ => st
  | q :: qs, argn =>
    let opt := args_optmap_get_standard st q
    let arg : Option String := if argn > 0 then some q else none
    let st := if !(args_optmap_contains st opt) || !(args_opts_contains st opt)
      then args_opts_new st opt else st
    let st := if argn > 0 then args_opts_append st opt arg else st
    cStoreLoop st qs (argn - 1)

/-- `args_opts_clear`. -/
def args_opts_clear (st : CState) (name : String) : CState :=
  args_opts_new st name

/-- The variadic finalisation of `args_parse`: the first variadic option
whose standard spelling has an entry in `args_opts` clears a leading
no-value sentinel (`*(args_opts_get(std)) == null`; dereferencing a
`null` or empty array is undefined behaviour in the source, modelled by
the `getD`/`headD` defaults and unreachable below), appends every bare
file, and empties the file list. -/
def cVariadicLoop (st : CState) : List COption → CState
  | [] => st
  | o :: rest =>
    if o.type = 2 then
      let std := o.standard
      if args_opts_contains st std then
        let st := if ((args_opts_get st std).getD []).headD none = none
          then args_opts_clear st std else st
        let st := st.files.foldl (fun s f => args_opts_append s std (some f)) st
        { st with files := [] }
      else cVariadicLoop st rest
    else cVariadicLoop st rest

/-- `args_parse(argc, argv)` (the argument vector here excludes the
executable name, which the source skips immediately): reset the counters,
scan, store, variadic finalisation, message synthesis and the summary
warning; returns whether no unrecognised option was used. -/
def args_parse (st : CState) (argv : List String) : CState × Bool :=
  let st := { st with unrecognised_count := 0, arguments := argv, files := [],
                      message := none }
  let s := cScanLoop
    { st := st, get := 0, dontget := 0, dashed := false, tmpdashed := false,
      rc := true, optqueue := [], argqueue := [] } argv
  let st := cStoreLoop s.st s.optqueue s.argqueue.length
  let st := cVariadicLoop st st.options
  let st := { st with message := (if st.files.isEmpty then st.message
    else some (String.intercalate " " st.files)) }
  let st := { st with out := (if st.unrecognised_count > 5
    then st.out ++ [summaryLine st.program (st.unrecognised_count - 5)]
    else st.out) }
  (st, s.rc)

/-- `args_support_alternatives`: the loop reads `*opts` and writes
`*(opts + 1)` on every iteration (the loop index is not used), over the
`key_count` keys recorded in the option map.  Reads past the key list
(`keys` is never filled by `map_put`) are undefined behaviour in the
source and modelled by the `getD ""` default. -/
def args_support_alternatives (st : CState) : CState :=
  let opts := st.optmap.keys
  let n := st.optmap.key_count
  (List.range n).foldl (fun s _ =>
    let std := args_optmap_get_standard s (opts.getD 0 "")
    let s := args_opts_put s (opts.getD 1 "") (args_opts_get s std)
    args_opts_put_count s (opts.getD 1 "") (args_opts_get_count s std)) st

end C

/-!
## The standard abbreviation expander (rewritten library core)

`args_standard_abbreviations(argument, options, standards, count)` walks
the parallel arrays `options`/`standards`; `strstr(options[i], argument)
== options[i]` holds exactly when `argument` is a literal prefix of
`options[i]`.  The source compares `found != standards[i]` by pointer;
entries of `standards` belonging to one option share the pointer, which
is modelled by string equality.
-/

/-- Bool-valued literal-prefix test (`strstr(o, a) == o`). -/
def strPre (a o : String) : Bool := a.data.isPrefixOf o.data

/-- The accumulator walk of `args_standard_abbreviations`: `found` is the
standard of the first match; a second match with a different standard
returns `NULL` immediately. -/
def abbrevGo (argument : String) : Option String → List (String × String) → Option String
  | found, [] => found
  | found, (o, s) :: rest =>
    if strPre argument o then
      match found with
      | none => abbrevGo argument (some s) rest
      | some f => if f ≠ s then none else abbrevGo argument (some f) rest
    else abbrevGo argument found rest

/-- `args_standard_abbreviations`. -/
def args_standard_abbreviations (argument : String) (options standards : List String) :
    Option String :=
  abbrevGo argument none (options.zip standards)

/-- Modelled from the amended specification wording: the standards of all
known spellings having the candidate as a literal prefix; the expansion
is their shared value when they all agree (and there is at least one
match), otherwise none. -/
def abbrevSpec (argument : String) (options standards : List String) : Option String :=
  match ((options.zip standards).filter (fun p => strPre argument p.1)).map Prod.snd with
  | [] => none
  | f :: rest => if rest.all (fun s => s == f) then some f else none


/-!
## Lemmas about the association-list map
-/

theorem hmGet_hmPut (m : List (String × α)) (k j : String) (v : α) :
    hmGet (hmPut m k v) j = if k = j then some v else hmGet m j := by
  induction m with
  | nil => by_cases h : k = j <;> simp [hmPut, hmGet, h]
  | cons kv rest ih =>
    obtain ⟨a, b⟩ := kv
    by_cases h : a = k
    · subst h
      by_cases h2 : a = j <;> simp [hmPut, hmGet, h2]
    · by_cases h2 : a = j
      · subst h2
        have hkj : ¬ k = a := fun e => h e.symm
        simp [hmPut, hmGet, h, hkj]
      · simp [hmPut, hmGet, h, h2, ih]

theorem hmGet_of_mem {m : List (String × α)} {k : String} {v : α}
    (hnd : (m.map Prod.fst).Nodup) (hm : (k, v) ∈ m) : hmGet m k = some v := by
  induction m with
  | nil => cases hm
  | cons kv rest ih =>
    obtain ⟨a, b⟩ := kv
    simp only [List.map_cons, List.nodup_cons] at hnd
    rcases List.mem_cons.mp hm with h | h
    · cases h; simp [hmGet]
    · have hk : a ≠ k := by
        intro e; subst e
        exact hnd.1 (List.mem_map.mpr ⟨(a, v), h, rfl⟩)
      simp [hmGet, hk, ih hnd.2 h]

theorem mem_of_hmGet {m : List (String × α)} {k : String} {v : α}
    (h : hmGet m k = some v) : (k, v) ∈ m := by
  induction m with
  | nil => simp [hmGet] at h
  | cons kv rest ih =>
    obtain ⟨a, b⟩ := kv
    by_cases e : a = k
    · subst e
      simp only [hmGet, beq_self_eq_true, if_pos] at h
      cases h; exact List.mem_cons_self _ _
    · simp only [hmGet, beq_iff_eq, if_neg e] at h
      exact List.mem_cons_of_mem _ (ih h)

/-!
## Claim C1 — the worked example of the specification

Declaring `{-h,--help}` argumentless (standard `-h`) and `{-l,--line}`
argumented (standard `-l`) and parsing `["-h","--line","x","extra"]`.
-/

/-- The example registry of the C variant. -/
def c1State : C.CState :=
  let st := C.args_init "test"
  let st := C.args_add_option st (C.newOption 0 none 0 ["-h", "--help"]) (some "h")
  C.args_add_option st (C.newOption 1 (some "LINE") 0 ["-l", "--line"]) (some "l")

/-- The example parse of the C variant. -/
def c1Run : C.CState × Bool := C.args_parse c1State ["-h", "--line", "x", "extra"]

/-- The example registry of the OOP variant. -/
def j1State : ArgParser :=
  let p := ArgParser.init "test"
  let p := p.add (JOpt.make .argumentless ["-h", "--help"] 0 none) (some "h")
  p.add (JOpt.make .argumented ["-l", "--line"] 0 (some "LINE")) (some "l")

/-- The example parse of the OOP variant. -/
def j1Run : ArgParser × Bool := j1State.parse ["-h", "--line", "x", "extra"]

/-- Claim C1: the C variant diverges from the claimed behaviour on the
specification's own example — its option map never finds the registered
spellings (see C3), so all four tokens are reported unrecognised, nothing
is recorded for `-h`/`-l`, the bare-file list stays empty and the parse
fails — while the OOP variant behaves exactly as the claim states. -/
theorem parse_example_divergence :
    (c1Run.2 = false ∧
     c1Run.1.unrecognised_count = 4 ∧
     c1Run.1.files = [] ∧
     C.args_opts_get_count c1Run.1 "-h" = 0 ∧
     C.args_opts_get c1Run.1 "-h" = none ∧
     C.args_opts_get_count c1Run.1 "-l" = 0 ∧
     C.args_opts_get c1Run.1 "-l" = none) ∧
    (j1Run.2 = true ∧
     j1Run.1.optsGet "-h" = some [none] ∧
     j1Run.1.optsGet "-l" = some [some "x"] ∧
     j1Run.1.files = ["extra"]) := by
  decide

/-!
## Claim C2 — bare tokens
-/

/-- Claim C2: in the C variant a token with no sigil (or a lone `-`) is
counted and reported as an unrecognised option and never reaches the
bare-file list; the OOP variant files it silently, as the claim states. -/
theorem bare_token_divergence :
    ((C.args_parse (C.args_init "test") ["x"]).1.files = [] ∧
     (C.args_parse (C.args_init "test") ["x"]).1.unrecognised_count = 1 ∧
     (C.args_parse (C.args_init "test") ["x"]).1.out = [warnLine "test" "x"] ∧
     (C.args_parse (C.args_init "test") ["x"]).2 = false ∧
     (C.args_parse (C.args_init "test") ["-"]).1.files = [] ∧
     (C.args_parse (C.args_init "test") ["-"]).1.unrecognised_count = 1) ∧
    (((ArgParser.init "test").parse ["x", "-"]).1.files = ["x", "-"] ∧
     ((ArgParser.init "test").parse ["x", "-"]).1.unrecognisedCount = 0 ∧
     ((ArgParser.init "test").parse ["x", "-"]).2 = true) := by
  decide

/-!
## Claim C3 — the name map contract
-/

/-- Claim C3: after `map_put` of the spelling `-h`, `map_get` does not
find it (the put links the second-level node at the wrong slot), the key
list stays empty and the key count stays `0`; at the option-map layer the
index comes back `-1` and `contains` is false. -/
theorem map_put_get_divergence :
    (C.map_get (C.map_put (C.mapInit (α := Nat)) "-h" 1) "-h" = none ∧
     (C.map_put (C.mapInit (α := Nat)) "-h" 1).keys = [] ∧
     (C.map_put (C.mapInit (α := Nat)) "-h" 1).key_count = 0) ∧
    (C.args_optmap_get_index (C.args_optmap_put (C.args_init "t") "-h" 0) "-h" = -1 ∧
     C.args_optmap_contains (C.args_optmap_put (C.args_init "t") "-h" 0) "-h" = false) := by
  decide

/-!
## Claim C9 — the standard abbreviation expander
-/

/-- Claim C9: the expander does not return the unique matching spelling —
it returns that option's standard spelling (`--li` expands to `-l`, the
standard of the uniquely matching `--line`) — and two matching spellings
sharing one standard do not yield `none` but that standard. -/
theorem standard_abbreviations_returns_standard :
    (args_standard_abbreviations "--li" ["--line"] ["-l"] = some "-l" ∧
     some "-l" ≠ some "--line") ∧
    (args_standard_abbreviations "--l" ["--l", "--lines"] ["--l", "--l"] = some "--l" ∧
     args_standard_abbreviations "--l" ["--l", "--lines"] ["--l", "--l"] ≠ none) := by
  decide

theorem abbrevGo_some (argument : String) (l : List (String × String)) (f : String) :
    abbrevGo argument (some f) l =
      if ((l.filter (fun p => strPre argument p.1)).map Prod.snd).all (fun s => s == f)
      then some f else none := by
  induction l with
  | nil => simp [abbrevGo]
  | cons p rest ih =>
    obtain ⟨o, s⟩ := p
    by_cases hp : strPre argument o
    · rw [List.filter_cons_of_pos (by simpa using hp)]
      by_cases hfs : f = s
      · subst hfs
        simp only [abbrevGo, hp, if_true, ne_eq, not_true_eq_false, if_false, ih,
          List.map_cons, List.all_cons, beq_self_eq_true, Bool.true_and]
      · simp [abbrevGo, hp, hfs, Ne.symm hfs]
    · rw [List.filter_cons_of_neg (by simpa using hp)]
      simp [abbrevGo, hp, ih]

/-- Claim C9, amended: the expander returns the standard spelling shared
by all known spellings of which the candidate is a literal prefix, and
`none` when there is no match or when two matches carry different
standards. -/
theorem standard_abbreviations_spec (argument : String) (options standards : List String) :
    args_standard_abbreviations argument options standards =
      abbrevSpec argument options standards := by
  unfold args_standard_abbreviations abbrevSpec
  generalize options.zip standards = l
  induction l with
  | nil => simp [abbrevGo]
  | cons p rest ih =>
    obtain ⟨o, s⟩ := p
    by_cases hp : strPre argument o
    · rw [List.filter_cons_of_pos (by simpa using hp)]
      simp [abbrevGo, hp, abbrevGo_some]
    · rw [List.filter_cons_of_neg (by simpa using hp)]
      simp [abbrevGo, hp, ih]

/-!
## Claim C8 — `--` and `++`
-/

theorem scanLoop_dashed (toks : List String) (st : ScanSt)
    (hd : st.dashed = true) (hg : st.get = 0) (ht : st.tmpdashed = false) :
    scanLoop st toks = { st with ps := { st.ps with files := st.ps.files ++ toks } } := by
  induction toks generalizing st with
  | nil => simp [scanLoop]
  | cons t rest ih =>
    have hstep : scanStep st t = { st with ps := { st.ps with files := st.ps.files ++ [t] } } := by
      unfold scanStep
      rw [if_neg (by simp [hg]), if_neg (by simp [ht]), if_pos hd]
    rw [scanLoop, hstep]
    exact (ih { st with ps := { st.ps with files := st.ps.files ++ [t] } } hd hg ht).trans
      (by simp)

/-- Claim C8: once `--` is met in the normal state every subsequent token
— option-looking or not — is appended to the bare-file list for the rest
of the input, and nothing else about the scan state changes; once `++` is
met in the normal state exactly the next token is appended to the
bare-file list and scanning resumes in the original state. -/
theorem dashdash_plusplus :
    (∀ (st : ScanSt) (rest : List String),
       st.get = 0 → st.tmpdashed = false → st.dashed = false →
       scanLoop st ("--" :: rest) =
         { st with dashed := true, ps := { st.ps with files := st.ps.files ++ rest } }) ∧
    (∀ (st : ScanSt) (t : String) (rest : List String),
       st.get = 0 → st.tmpdashed = false → st.dashed = false →
       scanLoop st ("++" :: t :: rest) =
         scanLoop { st with ps := { st.ps with files := st.ps.files ++ [t] } } rest) := by
  constructor
  · intro st rest hg ht hd
    have hstep : scanStep st "--" = { st with dashed := true } := by
      unfold scanStep
      rw [if_neg (by simp [hg]), if_neg (by simp [ht]), if_neg (by simp [hd]),
        if_neg (by decide), if_pos (by decide)]
    rw [scanLoop, hstep]
    exact scanLoop_dashed rest _ rfl hg ht
  · intro st t rest hg ht hd
    have hstep : scanStep st "++" = { st with tmpdashed := true } := by
      unfold scanStep
      rw [if_neg (by simp [hg]), if_neg (by simp [ht]), if_neg (by simp [hd]),
        if_pos (by decide)]
    have hstep2 : scanStep { st with tmpdashed := true } t =
        { st with ps := { st.ps with files := st.ps.files ++ [t] } } := by
      unfold scanStep
      rw [if_neg (by simp [hg]), if_pos rfl]
      simp [ht]
    rw [scanLoop, hstep, scanLoop, hstep2]

/-- A concrete normal-state scan state. -/
def scanSt0 : ScanSt :=
  { ps := ArgParser.init "t", get := 0, dontget := 0, dashed := false,
    tmpdashed := false, rc := true, optqueue := [], argqueue := [] }

/-- Witness for C8 at a concrete state: `["--","-x"]` files `-x` under
`--`, and `["++","-x"]` files `-x` and resumes. -/
theorem dashdash_plusplus_witness :
    scanLoop scanSt0 ["--", "-x"] =
      { scanSt0 with dashed := true, ps := { scanSt0.ps with files := ["-x"] } } ∧
    scanLoop scanSt0 ["++", "-x"] =
      scanLoop { scanSt0 with ps := { scanSt0.ps with files := ["-x"] } } [] := by
  constructor
  · have h := dashdash_plusplus.1 scanSt0 ["-x"] rfl rfl rfl
    simpa using h
  · have h := dashdash_plusplus.2 scanSt0 "-x" [] rfl rfl rfl
    simpa using h

/-!
## Claim C7 — variadic finalisation
-/

/-- "Invoked during the scan": a variadic option whose standard spelling
carries a non-`null` result entry after the store loop. -/
def invokedVariadic (opts : List (String × Option (List (Option String)))) (o : JOpt) :
    Bool :=
  (o.kind == JKind.variadic) && ((hmGet opts o.standard).getD none).isSome

/-- Claim C7: the post-scan finalisation absorbs the bare files into the
first invoked variadic option — appending them to its recorded values,
with a lone no-value sentinel replaced — and empties the file list;
entries of other spellings are untouched; when no variadic option was
invoked, the store and the file list come back unchanged.  The shape
hypothesis on the invoked entry (a lone sentinel, or a leading real
value) holds for every store a scan produces: a variadic option is
recorded at most once, with one sentinel or one value. -/
theorem variadic_finalization (options : List JOpt)
    (opts : List (String × Option (List (Option String)))) (files : List String)
    (hshape : ∀ o ∈ options, o.kind = .variadic →
      ∀ vs, (hmGet opts o.standard).getD none = some vs →
        vs = [none] ∨ vs.headD none ≠ none) :
    (options.find? (invokedVariadic opts) = none →
       jfinalize opts files options = (opts, files)) ∧
    (∀ v, options.find? (invokedVariadic opts) = some v →
       (jfinalize opts files options).2 = [] ∧
       (hmGet (jfinalize opts files options).1 v.standard).getD none =
         some ((if ((hmGet opts v.standard).getD none).getD [] = [none] then []
                else ((hmGet opts v.standard).getD none).getD []) ++ files.map some) ∧
       (∀ k, k ≠ v.standard →
         hmGet (jfinalize opts files options).1 k = hmGet opts k)) := by
  induction options with
  | nil =>
    constructor
    · intro _; rfl
    · intro v hv; simp [List.find?] at hv
  | cons o rest ih =>
    have hshape' : ∀ o' ∈ rest, o'.kind = .variadic →
        ∀ vs, (hmGet opts o'.standard).getD none = some vs →
          vs = [none] ∨ vs.headD none ≠ none :=
      fun o' h => hshape o' (List.mem_cons_of_mem _ h)
    by_cases hinv : invokedVariadic opts o
    · -- the head is the first invoked variadic option
      have hparts : o.kind = JKind.variadic ∧
          ((hmGet opts o.standard).getD none).isSome := by
        have := hinv
        unfold invokedVariadic at this
        simpa using this
      have hkind := hparts.1
      obtain ⟨vs, hvs⟩ := Option.isSome_iff_exists.mp hparts.2
      have hfind : (o :: rest).find? (invokedVariadic opts) = some o := by
        simp [List.find?, hinv]
      constructor
      · intro hnone; rw [hfind] at hnone; cases hnone
      · intro v hv
        rw [hfind] at hv
        cases hv
        rcases hshape o (List.mem_cons_self o rest) hkind vs hvs with h1 | h1
        · subst h1
          have hrun : jfinalize opts files (o :: rest) =
              (hmPut opts o.standard (some (files.map some)), []) := by
            conv_lhs => rw [jfinalize]
            rw [if_pos hkind, hvs]
            exact rfl
          rw [hrun]
          refine ⟨rfl, ?_, ?_⟩
          · rw [hmGet_hmPut, if_pos rfl]
            simp [hvs]
          · intro k hk
            rw [hmGet_hmPut, if_neg (fun e => hk e.symm)]
        · have hstep : jfinalize opts files (o :: rest) =
              (if vs.headD none = none
               then (hmPut opts o.standard (some (files.map some)), ([] : List String))
               else (hmPut opts o.standard (some (vs ++ files.map some)), [])) := by
            conv_lhs => rw [jfinalize]
            rw [if_pos hkind, hvs]
          have hrun : jfinalize opts files (o :: rest) =
              (hmPut opts o.standard (some (vs ++ files.map some)), []) := by
            rw [hstep, if_neg h1]
          have hne : ¬ vs = [none] := by
            intro e; subst e; simp at h1
          rw [hrun]
          refine ⟨rfl, ?_, ?_⟩
          · rw [hmGet_hmPut, if_pos rfl]
            simp [hvs, hne]
          · intro k hk
            rw [hmGet_hmPut, if_neg (fun e => hk e.symm)]
    · -- the head is skipped: not variadic, or its entry is null
      have hrec : jfinalize opts files (o :: rest) = jfinalize opts files rest := by
        conv_lhs => rw [jfinalize]
        by_cases hk : o.kind = .variadic
        · rw [if_pos hk]
          have hnull : (hmGet opts o.standard).getD none = none := by
            unfold invokedVariadic at hinv
            simp [hk] at hinv
            exact Option.not_isSome_iff_eq_none.mp (by simpa using hinv)
          rw [hnull]
        · rw [if_neg hk]
      have hfind : (o :: rest).find? (invokedVariadic opts) =
          rest.find? (invokedVariadic opts) := by
        simp [List.find?, hinv]
      rw [hrec, hfind]
      exact ih hshape'

/-- A concrete variadic option for the C7 witness. -/
def c7Opt : JOpt := JOpt.make .variadic ["--l", "--lines"] 0 (some "LINE")

/-- Witness for C7: one variadic option, invoked with a lone no-value
sentinel, with bare files `a`, `b`: they become its values and the file
list is emptied. -/
theorem variadic_finalization_witness :
    (jfinalize [("--l", some [none])] ["a", "b"] [c7Opt]).2 = [] ∧
    (hmGet (jfinalize [("--l", some [none])] ["a", "b"] [c7Opt]).1 "--l").getD none =
      some [some "a", some "b"] ∧
    (∀ k, k ≠ "--l" →
      hmGet (jfinalize [("--l", some [none])] ["a", "b"] [c7Opt]).1 k =
        hmGet [("--l", some [none])] k) := by
  have h := (variadic_finalization [c7Opt] [("--l", some [none])] ["a", "b"]
    (by decide)).2 c7Opt (by decide)
  obtain ⟨h1, h2, h3⟩ := h
  have hstd : c7Opt.standard = "--l" := rfl
  rw [hstd] at h2 h3
  refine ⟨h1, ?_, ?_⟩
  · rw [h2]; decide
  · intro k hk
    exact h3 k hk

/-!
## Claim C4 — the alternatives resolver
-/

/-- The flattened result query (`opts.get` with `null` for both a missing
key and a `null` entry). -/
def optsAt (opts : List (String × Option (List (Option String)))) (k : String) :
    Option (List (Option String)) :=
  (hmGet opts k).getD none

/-- The standard spelling the resolver reads for a key
(`optmap.get(opt).standard`; a missing key would be a null-pointer error
in the source and is modelled by `""`). -/
def stdOf (optmap : List (String × JOpt)) (s : String) : String :=
  match hmGet optmap s with
  | some o => o.standard
  | none => ""

/-- A key whose map entry resolves to an option having it as standard. -/
def IsStd (optmap : List (String × JOpt)) (k : String) : Prop :=
  ∃ o, hmGet optmap k = some o ∧ o.standard = k

theorem stdOf_eq {optmap : List (String × JOpt)} {s : String} {o : JOpt}
    (ho : hmGet optmap s = some o) : stdOf optmap s = o.standard := by
  unfold stdOf
  rw [ho]

theorem optsAt_hmPut (opts : List (String × Option (List (Option String))))
    (k j : String) (v : Option (List (Option String))) :
    optsAt (hmPut opts k v) j = if k = j then v else optsAt opts j := by
  unfold optsAt
  rw [hmGet_hmPut]
  split <;> rfl

theorem saFold_eq_def (optmap : List (String × JOpt)) (s : String) (rest : List String)
    (opts : List (String × Option (List (Option String)))) :
    saFold optmap (s :: rest) opts =
      saFold optmap rest (hmPut opts s (optsAt opts (stdOf optmap s))) :=
  rfl

theorem saFold_not_mem (optmap : List (String × JOpt)) (ks : List String)
    (opts : List (String × Option (List (Option String)))) (k : String)
    (hk : k ∉ ks) :
    optsAt (saFold optmap ks opts) k = optsAt opts k := by
  induction ks generalizing opts with
  | nil => rfl
  | cons s rest ih =>
    rw [saFold_eq_def]
    have hks : k ∉ rest := fun h => hk (List.mem_cons_of_mem _ h)
    have hne : s ≠ k := fun e => hk (e ▸ List.mem_cons_self s rest)
    rw [ih _ hks, optsAt_hmPut, if_neg hne]

theorem saFold_std_fixed (optmap : List (String × JOpt)) (ks : List String)
    (opts : List (String × Option (List (Option String)))) (k : String)
    (hk : IsStd optmap k) :
    optsAt (saFold optmap ks opts) k = optsAt opts k := by
  induction ks generalizing opts with
  | nil => rfl
  | cons s rest ih =>
    rw [saFold_eq_def, ih]
    rw [optsAt_hmPut]
    split
    · next he =>
      subst he
      obtain ⟨o, ho, hos⟩ := hk
      rw [stdOf_eq ho, hos]
    · rfl

theorem saFold_result (optmap : List (String × JOpt)) (ks : List String)
    (opts : List (String × Option (List (Option String)))) (k : String)
    (hnd : ks.Nodup) (hmem : k ∈ ks)
    (hstd : ∀ s ∈ ks, IsStd optmap (stdOf optmap s)) :
    optsAt (saFold optmap ks opts) k = optsAt opts (stdOf optmap k) := by
  induction ks generalizing opts with
  | nil => cases hmem
  | cons s rest ih =>
    rw [saFold_eq_def]
    rcases List.mem_cons.mp hmem with he | hm
    · subst he
      have hnot : k ∉ rest := (List.nodup_cons.mp hnd).1
      rw [saFold_not_mem _ _ _ _ hnot, optsAt_hmPut, if_pos rfl]
    · have hnd' := (List.nodup_cons.mp hnd).2
      have hstd' : ∀ t ∈ rest, IsStd optmap (stdOf optmap t) :=
        fun t ht => hstd t (List.mem_cons_of_mem _ ht)
      rw [ih _ hnd' hm hstd']
      rw [optsAt_hmPut]
      split
      · next he =>
        -- the processed key `s` is the standard of `k`; the value written
        -- for `s` is its own current value, so the query is unchanged
        have hs : IsStd optmap s := he ▸ hstd k (List.mem_cons_of_mem _ hm)
        obtain ⟨o, ho, hos⟩ := hs
        rw [stdOf_eq ho, hos, he]
      · rfl

/-- Claim C4: after `supportAlternatives`, a query by any spelling in the
name map returns exactly the sequence returned by a query by that
option's standard spelling (hence also the same count), and a second run
changes no query result.  The hypotheses say the name-map keys are
unique and that every registered option is found under its own standard
spelling — which holds for every registry built by `add` with globally
unique spellings. -/
theorem supportAlternatives_aliases (p : ArgParser)
    (hnd : (p.optmap.map Prod.fst).Nodup)
    (hstd : ∀ so ∈ p.optmap, hmGet p.optmap so.2.standard = some so.2) :
    (∀ so ∈ p.optmap,
       optsAt p.supportAlternatives.opts so.1 =
         optsAt p.supportAlternatives.opts so.2.standard) ∧
    (∀ k, optsAt p.supportAlternatives.supportAlternatives.opts k =
       optsAt p.supportAlternatives.opts k) := by
  have hkeys : ∀ s ∈ p.optmap.map Prod.fst, ∃ o, hmGet p.optmap s = some o := by
    intro s hs
    obtain ⟨⟨s', o⟩, hmem, he⟩ := List.mem_map.mp hs
    cases he
    exact ⟨o, hmGet_of_mem hnd hmem⟩
  have hstd' : ∀ s ∈ p.optmap.map Prod.fst, IsStd p.optmap (stdOf p.optmap s) := by
    intro s hs
    obtain ⟨o, ho⟩ := hkeys s hs
    have hmem := mem_of_hmGet ho
    have h2 := hstd (s, o) hmem
    refine ⟨o, ?_, ?_⟩
    · rw [stdOf_eq ho]; exact h2
    · rw [stdOf_eq ho]
  constructor
  · intro so hso
    have hs1 : so.1 ∈ p.optmap.map Prod.fst := List.mem_map.mpr ⟨so, hso, rfl⟩
    have hget : hmGet p.optmap so.1 = some so.2 :=
      hmGet_of_mem hnd (by simpa using hso)
    have h1 : optsAt p.supportAlternatives.opts so.1 = optsAt p.opts so.2.standard := by
      unfold ArgParser.supportAlternatives
      rw [saFold_result _ _ _ _ hnd hs1 hstd', stdOf_eq hget]
    have hisstd : IsStd p.optmap so.2.standard := ⟨so.2, hstd so hso, rfl⟩
    have h2 : optsAt p.supportAlternatives.opts so.2.standard =
        optsAt p.opts so.2.standard := by
      unfold ArgParser.supportAlternatives
      exact saFold_std_fixed _ _ _ _ hisstd
    rw [h1, h2]
  · intro k
    by_cases hk : k ∈ p.optmap.map Prod.fst
    · obtain ⟨o, ho⟩ := hkeys k hk
      have hisstd : IsStd p.optmap (stdOf p.optmap k) := hstd' k hk
      have hfirst : optsAt p.supportAlternatives.opts k =
          optsAt p.opts (stdOf p.optmap k) := by
        unfold ArgParser.supportAlternatives
        exact saFold_result _ _ _ _ hnd hk hstd'
      have hsecond : optsAt p.supportAlternatives.supportAlternatives.opts k =
          optsAt p.supportAlternatives.opts (stdOf p.optmap k) := by
        unfold ArgParser.supportAlternatives
        exact saFold_result _ _ _ _ hnd hk hstd'
      have hstdpres : optsAt p.supportAlternatives.opts (stdOf p.optmap k) =
          optsAt p.opts (stdOf p.optmap k) := by
        unfold ArgParser.supportAlternatives
        exact saFold_std_fixed _ _ _ _ hisstd
      rw [hsecond, hstdpres, hfirst]
    · unfold ArgParser.supportAlternatives
      exact saFold_not_mem _ _ _ _ hk

/-- Witness for C4: the `-h`/`--help` registry after parsing `-h` once;
after the resolver, `--help` answers like `-h` (one no-value use), and a
second run is a no-op on every query. -/
theorem supportAlternatives_aliases_witness :
    ((∀ so ∈ (j1Run.1).optmap,
        optsAt (j1Run.1).supportAlternatives.opts so.1 =
          optsAt (j1Run.1).supportAlternatives.opts so.2.standard) ∧
     (∀ k, optsAt (j1Run.1).supportAlternatives.supportAlternatives.opts k =
        optsAt (j1Run.1).supportAlternatives.opts k)) ∧
    optsAt (j1Run.1).supportAlternatives.opts "--help" = some [none] := by
  refine ⟨supportAlternatives_aliases j1Run.1 (by decide) (by decide), by decide⟩

/-!
## Claim C5 — `testExclusiveness`
-/

/-- The used spellings of the exclusive set, read off the set itself:
members whose result entry is non-`null`. -/
def specUsed (p : ArgParser) (exclusives : List String) : List String :=
  exclusives.filter (fun s => (optsAt p.opts s).isSome)

/-- The number of distinct declared options that have a spelling in the
set and were used — the reading of the claim ("at most one option in the
set was used"). -/
def usedOptionsInSet (p : ArgParser) (exclusives : List String) : Nat :=
  (p.options.filter (fun o =>
    o.alternatives.any (fun s => exclusives.contains s) &&
      (optsAt p.opts o.standard).isSome)).length

theorem mem_usedExcl {opts : List (String × Option (List (Option String)))}
    {exclusives : List String} {s : String}
    (hnd : (opts.map Prod.fst).Nodup) :
    s ∈ usedExcl opts exclusives ↔ ((optsAt opts s).isSome ∧ s ∈ exclusives) := by
  constructor
  · intro hs
    obtain ⟨kv, hkv, he⟩ := List.mem_map.mp hs
    subst he
    have h2 := List.mem_filter.mp hkv
    have hget : hmGet opts kv.1 = some kv.2 := hmGet_of_mem hnd (by simpa using h2.1)
    constructor
    · unfold optsAt
      rw [hget]
      exact (Bool.and_eq_true .. ▸ h2.2).1
    · have := (Bool.and_eq_true .. ▸ h2.2).2
      simpa using this
  · rintro ⟨hsome, hmem⟩
    have hv : ∃ v, hmGet opts s = some v ∧ v.isSome := by
      unfold optsAt at hsome
      cases hg : hmGet opts s with
      | none => rw [hg] at hsome; simp at hsome
      | some v => rw [hg] at hsome; exact ⟨v, rfl, by simpa using hsome⟩
    obtain ⟨v, hg, hvs⟩ := hv
    refine List.mem_map.mpr ⟨(s, v), List.mem_filter.mpr ⟨mem_of_hmGet hg, ?_⟩, rfl⟩
    simp [hvs, hmem]

theorem usedExcl_length_eq (p : ArgParser) (exclusives : List String)
    (h1 : exclusives.Nodup) (h2 : (p.opts.map Prod.fst).Nodup) :
    (usedExcl p.opts exclusives).length = (specUsed p exclusives).length := by
  have hndA : (usedExcl p.opts exclusives).Nodup := by
    unfold usedExcl
    exact h2.sublist ((List.filter_sublist _).map Prod.fst)
  have hndB : (specUsed p exclusives).Nodup := h1.filter _
  have hperm : List.Perm (usedExcl p.opts exclusives) (specUsed p exclusives) := by
    rw [List.perm_ext_iff_of_nodup hndA hndB]
    intro s
    rw [mem_usedExcl h2]
    unfold specUsed
    rw [List.mem_filter]
    constructor
    · rintro ⟨ha, hb⟩; exact ⟨hb, by simpa using ha⟩
    · rintro ⟨ha, hb⟩; exact ⟨by simpa using hb, ha⟩
  exact hperm.length_eq

/-- Claim C5, amended: `testExclusiveness` returns true exactly when at
most one spelling of the exclusive set has a non-`null` result entry
(after `supportAlternatives` a single used option can contribute several
such spellings); on success nothing is printed, on violation exactly one
combined conflict line is appended. -/
theorem testExclusiveness_spelling_count (p : ArgParser) (exclusives : List String)
    (h1 : exclusives.Nodup) (h2 : (p.opts.map Prod.fst).Nodup) :
    ((p.testExclusiveness exclusives).1 = decide ((specUsed p exclusives).length ≤ 1)) ∧
    ((specUsed p exclusives).length ≤ 1 → (p.testExclusiveness exclusives).2 = p) ∧
    (1 < (specUsed p exclusives).length →
      (p.testExclusiveness exclusives).2.out =
        p.out ++ [conflictMsg p.program p.optmap (usedExcl p.opts exclusives)]) := by
  have hlen := usedExcl_length_eq p exclusives h1 h2
  unfold ArgParser.testExclusiveness
  by_cases h : (usedExcl p.opts exclusives).length > 1
  · rw [if_pos h]
    rw [hlen] at h
    refine ⟨?_, ?_, ?_⟩
    · simp [Nat.not_le.mpr h]
    · intro hle; omega
    · intro _; rfl
  · rw [if_neg h]
    rw [hlen] at h
    refine ⟨?_, ?_, ?_⟩
    · simp [Nat.not_lt.mp h, Nat.le_of_lt_succ]
    · intro _; rfl
    · intro hgt; omega

/-- The `-h`/`--help` registry, parsed with `-h` used once, after the
alternatives resolver. -/
def c5Run : ArgParser :=
  ((((ArgParser.init "test").add
      (JOpt.make .argumentless ["-h", "--help"] 0 none) (some "h")).parse
    ["-h"]).1).supportAlternatives

/-- Claim C5, counterexample: the exclusive set `{-h, --help}` holds two
spellings of one single option; that option was used once, so the claim
demands `true` — but `testExclusiveness` returns `false` and prints a
conflict line naming both spellings. -/
theorem testExclusiveness_one_option_refuted :
    (c5Run.testExclusiveness ["-h", "--help"]).1 = false ∧
    usedOptionsInSet c5Run ["-h", "--help"] = 1 ∧
    (c5Run.testExclusiveness ["-h", "--help"]).2.out =
      ["test: conflicting options: -h --help(-h)"] := by
  decide

/-- Witness for the amended C5 at the concrete run: two used spellings in
the set, so the check fails and exactly one line is printed. -/
theorem testExclusiveness_spelling_count_witness :
    ((c5Run.testExclusiveness ["-h", "--help"]).1 =
      decide ((specUsed c5Run ["-h", "--help"]).length ≤ 1)) ∧
    (1 < (specUsed c5Run ["-h", "--help"]).length) ∧
    ((c5Run.testExclusiveness ["-h", "--help"]).2.out =
      c5Run.out ++ [conflictMsg c5Run.program c5Run.optmap
        (usedExcl c5Run.opts ["-h", "--help"])]) := by
  have h := testExclusiveness_spelling_count c5Run ["-h", "--help"]
    (by decide) (by decide)
  exact ⟨h.1, by decide, h.2.2 (by decide)⟩

/-!
## The scan invariant (claims C6 and C10)

Relates a scan state to any state reachable from it: the unrecognised
count never decreases, `rc` stays true exactly when no unrecognised
token was met in between, one warning line is printed per unrecognised
token up to the fifth, and the option registry and the name map are
untouched.
-/

def ScanInv (st r : ScanSt) : Prop :=
  st.ps.unrecognisedCount ≤ r.ps.unrecognisedCount ∧
  (r.rc = true ↔ (st.rc = true ∧ r.ps.unrecognisedCount = st.ps.unrecognisedCount)) ∧
  (r.ps.out.length + min st.ps.unrecognisedCount 5 =
    st.ps.out.length + min r.ps.unrecognisedCount 5) ∧
  r.ps.optmap = st.ps.optmap ∧
  r.ps.options = st.ps.options

theorem scanInv_rfl (st : ScanSt) : ScanInv st st :=
  ⟨Nat.le_refl _, by simp, rfl, rfl, rfl⟩

theorem scanInv_trans {a b c : ScanSt} (h1 : ScanInv a b) (h2 : ScanInv b c) :
    ScanInv a c := by
  obtain ⟨m1, r1, o1, p1, q1⟩ := h1
  obtain ⟨m2, r2, o2, p2, q2⟩ := h2
  refine ⟨Nat.le_trans m1 m2, ?_, by omega, p2.trans p1, q2.trans q1⟩
  rw [r2, r1]
  constructor
  · rintro ⟨⟨ha, hb⟩, hc⟩; exact ⟨ha, by omega⟩
  · rintro ⟨ha, hb⟩; exact ⟨⟨ha, by omega⟩, by omega⟩

/-- Branches that touch neither the counters, the warnings, `rc` nor the
registry keep the invariant. -/
theorem scanInv_of_eq {st r : ScanSt}
    (h1 : r.ps.unrecognisedCount = st.ps.unrecognisedCount)
    (h2 : r.rc = st.rc) (h3 : r.ps.out = st.ps.out)
    (h4 : r.ps.optmap = st.ps.optmap) (h5 : r.ps.options = st.ps.options) :
    ScanInv st r :=
  ⟨Nat.le_of_eq h1.symm, by rw [h1, h2]; simp, by rw [h1, h3], h4, h5⟩

theorem scanInv_unrec (st : ScanSt) (arg : String) : ScanInv st (st.unrec arg) := by
  unfold ScanSt.unrec ScanInv
  dsimp only
  refine ⟨by omega, by simp, ?_, rfl, rfl⟩
  by_cases h : st.ps.unrecognisedCount + 1 ≤ 5
  · rw [if_pos h, List.length_append, Nat.min_eq_left (by omega : st.ps.unrecognisedCount ≤ 5),
      Nat.min_eq_left h, List.length_singleton]
    omega
  · rw [if_neg h, Nat.min_eq_right (by omega : 5 ≤ st.ps.unrecognisedCount),
      Nat.min_eq_right (by omega : 5 ≤ st.ps.unrecognisedCount + 1)]

theorem clusterLoop_inv (sign : Char) (arg : String) (cs : List Char) (st : ScanSt) :
    ScanInv st (clusterLoop st sign arg cs) := by
  induction cs generalizing st with
  | nil => exact scanInv_rfl st
  | cons c rest ih =>
    simp only [clusterLoop]
    split
    · next o heq =>
      split
      · refine scanInv_trans ?_ (ih _)
        exact scanInv_of_eq rfl rfl rfl rfl rfl
      · split
        · exact scanInv_of_eq rfl rfl rfl rfl rfl
        · exact scanInv_of_eq rfl rfl rfl rfl rfl
      · exact scanInv_of_eq rfl rfl rfl rfl rfl
    · refine scanInv_trans ?_ (ih _)
      exact scanInv_unrec st arg

theorem longEq_inv (st : ScanSt) (arg : String) : ScanInv st (longStep.longEq st arg) := by
  simp only [longStep.longEq]
  split
  · split
    · split
      · exact scanInv_of_eq rfl rfl rfl rfl rfl
      · exact scanInv_of_eq rfl rfl rfl rfl rfl
    · exact scanInv_unrec st arg
  · exact scanInv_unrec st arg

theorem longStep_inv (st : ScanSt) (arg : String) : ScanInv st (longStep st arg) := by
  unfold longStep
  split
  · exact scanInv_of_eq rfl rfl rfl rfl rfl
  · split
    · split
      · exact scanInv_of_eq rfl rfl rfl rfl rfl
      · split
        · exact longEq_inv st arg
        · split
          · exact scanInv_of_eq rfl rfl rfl rfl rfl
          · exact scanInv_of_eq rfl rfl rfl rfl rfl
    · split
      · exact longEq_inv st arg
      · exact scanInv_unrec st arg

theorem scanStep_inv (st : ScanSt) (arg : String) : ScanInv st (scanStep st arg) := by
  unfold scanStep
  split
  · exact scanInv_of_eq rfl rfl rfl rfl rfl
  · split
    · exact scanInv_of_eq rfl rfl rfl rfl rfl
    · split
      · exact scanInv_of_eq rfl rfl rfl rfl rfl
      · split
        · exact scanInv_of_eq rfl rfl rfl rfl rfl
        · split
          · exact scanInv_of_eq rfl rfl rfl rfl rfl
          · split
            · split
              · split
                · exact longStep_inv st arg
                · exact clusterLoop_inv _ arg _ st
              · exact scanInv_of_eq rfl rfl rfl rfl rfl
            · exact scanInv_of_eq rfl rfl rfl rfl rfl

theorem scanLoop_inv (argv : List String) (st : ScanSt) :
    ScanInv st (scanLoop st argv) := by
  induction argv generalizing st with
  | nil => exact scanInv_rfl st
  | cons arg rest ih =>
    rw [scanLoop]
    exact scanInv_trans (scanStep_inv st arg) (ih _)

/-- The scan state `parse` reaches after the scan loop. -/
def scanOf (p : ArgParser) (argv : List String) : ScanSt :=
  scanLoop
    { ps := { p with arguments := argv }, get := 0, dontget := 0, dashed := false,
      tmpdashed := false, rc := true, optqueue := [], argqueue := [] } argv

theorem parse_rc (p : ArgParser) (argv : List String) :
    (p.parse argv).2 = (scanOf p argv).rc := rfl

theorem parse_count (p : ArgParser) (argv : List String) :
    (p.parse argv).1.unrecognisedCount = (scanOf p argv).ps.unrecognisedCount := rfl

theorem parse_optmap_eq (p : ArgParser) (argv : List String) :
    (p.parse argv).1.optmap = (scanOf p argv).ps.optmap := rfl

theorem parse_options_eq (p : ArgParser) (argv : List String) :
    (p.parse argv).1.options = (scanOf p argv).ps.options := rfl

theorem parse_out (p : ArgParser) (argv : List String) :
    (p.parse argv).1.out = (scanOf p argv).ps.out ++
      (if 5 < (scanOf p argv).ps.unrecognisedCount
       then [summaryLine (scanOf p argv).ps.program
         ((scanOf p argv).ps.unrecognisedCount - 5)]
       else []) := by
  show (if 5 < (scanOf p argv).ps.unrecognisedCount
    then (scanOf p argv).ps.out ++ [summaryLine (scanOf p argv).ps.program
      ((scanOf p argv).ps.unrecognisedCount - 5)]
    else (scanOf p argv).ps.out) = _
  split <;> simp

theorem scanOf_inv (p : ArgParser) (argv : List String) :
    ScanInv
      { ps := { p with arguments := argv }, get := 0, dontget := 0, dashed := false,
        tmpdashed := false, rc := true, optqueue := [], argqueue := [] }
      (scanOf p argv) :=
  scanLoop_inv argv _

/-!
## Claim C6 — unrecognised-option reporting
-/

/-- Claim C6: (i) a parse from a fresh counter fails exactly when at
least one unrecognised token was met — unrecognised tokens never abort
the scan, which always runs to completion and returns a flag; (ii) the
number of warning lines printed is the unrecognised count capped at 5,
plus one summary line when the count exceeds 5; (iii) on seven distinct
unknown long-form tokens: exactly five individual warnings, one summary
line citing 2 more, overall failure. -/
theorem unrecognised_reporting :
    (∀ (p : ArgParser) (argv : List String), p.unrecognisedCount = 0 →
       (((p.parse argv).2 = false) ↔ 0 < (p.parse argv).1.unrecognisedCount)) ∧
    (∀ (p : ArgParser) (argv : List String), p.unrecognisedCount = 0 → p.out = [] →
       (p.parse argv).1.out.length = min (p.parse argv).1.unrecognisedCount 5 +
         (if 5 < (p.parse argv).1.unrecognisedCount then 1 else 0)) ∧
    (((ArgParser.init "test").parse
        ["--u1", "--u2", "--u3", "--u4", "--u5", "--u6", "--u7"]).1.out =
       [warnLine "test" "--u1", warnLine "test" "--u2", warnLine "test" "--u3",
        warnLine "test" "--u4", warnLine "test" "--u5", summaryLine "test" 2] ∧
     ((ArgParser.init "test").parse
        ["--u1", "--u2", "--u3", "--u4", "--u5", "--u6", "--u7"]).2 = false ∧
     ((ArgParser.init "test").parse
        ["--u1", "--u2", "--u3", "--u4", "--u5", "--u6", "--u7"]).1.unrecognisedCount
       = 7) := by
  refine ⟨?_, ?_, by decide⟩
  · intro p argv h0
    rw [parse_rc, parse_count]
    obtain ⟨-, hrc, -, -, -⟩ := scanOf_inv p argv
    dsimp only at hrc
    rw [h0] at hrc
    constructor
    · intro hfalse
      rcases Nat.eq_zero_or_pos (scanOf p argv).ps.unrecognisedCount with hz | hp
      · rw [hfalse] at hrc
        simp [hz] at hrc
      · exact hp
    · intro hp
      cases hb : (scanOf p argv).rc
      · rfl
      · rw [hb] at hrc
        have := hrc.mp rfl
        omega
  · intro p argv h0 hout
    rw [parse_out, parse_count]
    obtain ⟨-, -, hlen, -, -⟩ := scanOf_inv p argv
    dsimp only at hlen
    rw [h0, hout] at hlen
    simp only [List.length_nil, Nat.min_zero, Nat.zero_min, Nat.add_zero, Nat.zero_add] at hlen
    rw [List.length_append, hlen]
    split <;> simp

/-- Witness for C6 at a concrete fresh parser and token vector. -/
theorem unrecognised_reporting_witness :
    ((((ArgParser.init "w").parse ["--zz"]).2 = false) ↔
       0 < ((ArgParser.init "w").parse ["--zz"]).1.unrecognisedCount) ∧
    (((ArgParser.init "w").parse ["--zz"]).1.out.length =
       min ((ArgParser.init "w").parse ["--zz"]).1.unrecognisedCount 5 +
         (if 5 < ((ArgParser.init "w").parse ["--zz"]).1.unrecognisedCount
          then 1 else 0)) :=
  ⟨unrecognised_reporting.1 (ArgParser.init "w") ["--zz"] rfl,
   unrecognised_reporting.2.1 (ArgParser.init "w") ["--zz"] rfl rfl⟩

/-!
## Claim C10 — parse leaves the registry and the name map untouched
-/

namespace C

/-- The registry/name-map components preserved by a scan transition. -/
def CPres (a b : CScan) : Prop :=
  b.st.optmap = a.st.optmap ∧ b.st.options = a.st.options

theorem cPres_rfl (a : CScan) : CPres a a := ⟨rfl, rfl⟩

theorem cPres_trans {a b c : CScan} (h1 : CPres a b) (h2 : CPres b c) : CPres a c :=
  ⟨h2.1.trans h1.1, h2.2.trans h1.2⟩

theorem cPres_unrec (s : CScan) (arg : String) : CPres s (s.unrec arg) := ⟨rfl, rfl⟩

theorem cClusterLoop_pres (sign : Char) (arg : String) (cs : List Char) (s : CScan) :
    CPres s (cClusterLoop s sign arg cs) := by
  induction cs generalizing s with
  | nil => exact cPres_rfl s
  | cons c rest ih =>
    simp only [cClusterLoop]
    split
    · split
      · refine cPres_trans ?_ (ih _)
        exact ⟨rfl, rfl⟩
      · split
        · split
          · exact ⟨rfl, rfl⟩
          · exact ⟨rfl, rfl⟩
        · exact ⟨rfl, rfl⟩
    · refine cPres_trans ?_ (ih _)
      exact cPres_unrec s arg

theorem cLongStep_pres (s : CScan) (arg : String) : CPres s (cLongStep s arg) := by
  simp only [cLongStep]
  split
  · exact ⟨rfl, rfl⟩
  · split
    · exact cPres_unrec s arg
    · split
      · exact ⟨rfl, rfl⟩
      · split
        · split
          · split
            · exact ⟨rfl, rfl⟩
            · exact ⟨rfl, rfl⟩
          · exact cPres_unrec s arg
        · split
          · exact ⟨rfl, rfl⟩
          · exact ⟨rfl, rfl⟩

theorem cScanStep_pres (s : CScan) (arg : String) : CPres s (cScanStep s arg) := by
  unfold cScanStep
  split
  · exact ⟨rfl, rfl⟩
  · split
    · exact ⟨rfl, rfl⟩
    · split
      · exact ⟨rfl, rfl⟩
      · split
        · exact ⟨rfl, rfl⟩
        · split
          · exact ⟨rfl, rfl⟩
          · split
            · split
              · split
                · exact cLongStep_pres s arg
                · exact cClusterLoop_pres _ arg _ s
              · exact cPres_unrec s arg
            · exact cPres_unrec s arg

theorem cScanLoop_pres (argv : List String) (s : CScan) :
    CPres s (cScanLoop s argv) := by
  induction argv generalizing s with
  | nil => exact cPres_rfl s
  | cons arg rest ih =>
    rw [cScanLoop]
    exact cPres_trans (cScanStep_pres s arg) (ih _)

theorem args_opts_put_pres (st : CState) (name : String)
    (values : Option (List (Option String))) :
    (args_opts_put st name values).optmap = st.optmap ∧
    (args_opts_put st name values).options = st.options := by
  unfold args_opts_put
  split <;> exact ⟨rfl, rfl⟩

theorem args_opts_put_count_pres (st : CState) (name : String) (count : Nat) :
    (args_opts_put_count st name count).optmap = st.optmap ∧
    (args_opts_put_count st name count).options = st.options := by
  unfold args_opts_put_count
  split <;> exact ⟨rfl, rfl⟩

theorem args_opts_new_pres (st : CState) (name : String) :
    (args_opts_new st name).optmap = st.optmap ∧
    (args_opts_new st name).options = st.options := by
  unfold args_opts_new
  exact ⟨(args_opts_put_count_pres _ _ _).1.trans (args_opts_put_pres st name none).1,
    (args_opts_put_count_pres _ _ _).2.trans (args_opts_put_pres st name none).2⟩

theorem args_opts_append_pres (st : CState) (name : String) (value : Option String) :
    (args_opts_append st name value).optmap = st.optmap ∧
    (args_opts_append st name value).options = st.options := by
  simp only [args_opts_append]
  refine ⟨(args_opts_put_count_pres _ _ _).1.trans ?_,
    (args_opts_put_count_pres _ _ _).2.trans ?_⟩
  · split <;> exact (args_opts_put_pres _ _ _).1
  · split <;> exact (args_opts_put_pres _ _ _).2

theorem cStoreLoop_pres (qs : List String) (argn : Nat) (st : CState) :
    (cStoreLoop st qs argn).optmap = st.optmap ∧
    (cStoreLoop st qs argn).options = st.options := by
  induction qs generalizing st argn with
  | nil => exact ⟨rfl, rfl⟩
  | cons q rest ih =>
    simp only [cStoreLoop]
    refine ⟨(ih _ _).1.trans ?_, (ih _ _).2.trans ?_⟩
    · split
      · refine (args_opts_append_pres _ _ _).1.trans ?_
        split
        · exact (args_opts_new_pres _ _).1
        · rfl
      · split
        · exact (args_opts_new_pres _ _).1
        · rfl
    · split
      · refine (args_opts_append_pres _ _ _).2.trans ?_
        split
        · exact (args_opts_new_pres _ _).2
        · rfl
      · split
        · exact (args_opts_new_pres _ _).2
        · rfl

theorem cAppendFold_pres (std : String) (fs : List String) (st : CState) :
    ((fs.foldl (fun s f => args_opts_append s std (some f)) st).optmap = st.optmap) ∧
    ((fs.foldl (fun s f => args_opts_append s std (some f)) st).options = st.options) := by
  induction fs generalizing st with
  | nil => exact ⟨rfl, rfl⟩
  | cons f rest ih =>
    simp only [List.foldl_cons]
    exact ⟨(ih _).1.trans (args_opts_append_pres _ _ _).1,
      (ih _).2.trans (args_opts_append_pres _ _ _).2⟩

theorem cVariadicLoop_pres (os : List COption) (st : CState) :
    (cVariadicLoop st os).optmap = st.optmap ∧
    (cVariadicLoop st os).options = st.options := by
  induction os generalizing st with
  | nil => exact ⟨rfl, rfl⟩
  | cons o rest ih =>
    simp only [cVariadicLoop]
    split
    · split
      · refine ⟨(cAppendFold_pres _ _ _).1.trans ?_, (cAppendFold_pres _ _ _).2.trans ?_⟩
        · split
          · exact (args_opts_new_pres _ _).1
          · rfl
        · split
          · exact (args_opts_new_pres _ _).2
          · rfl
      · exact ih st
    · exact ih st

theorem args_parse_pres (st : CState) (argv : List String) :
    (args_parse st argv).1.optmap = st.optmap ∧
    (args_parse st argv).1.options = st.options := by
  refine ⟨?_, ?_⟩
  · exact (cVariadicLoop_pres _ _).1.trans
      ((cStoreLoop_pres _ _ _).1.trans (cScanLoop_pres argv _).1)
  · exact (cVariadicLoop_pres _ _).2.trans
      ((cStoreLoop_pres _ _ _).2.trans (cScanLoop_pres argv _).2)

end C

/-- Claim C10: parse touches only the result store, the file list, the
message, the counters and the diagnostic sink — the option registry
(kinds, alternatives, standard spellings, argument names, help texts)
and every name-map association are identical before and after the call,
in both the OOP variant and the C variant. -/
theorem parse_preserves_registry_and_namemap :
    (∀ (p : ArgParser) (argv : List String),
       (p.parse argv).1.optmap = p.optmap ∧ (p.parse argv).1.options = p.options) ∧
    (∀ (st : C.CState) (argv : List String),
       (C.args_parse st argv).1.optmap = st.optmap ∧
       (C.args_parse st argv).1.options = st.options) := by
  constructor
  · intro p argv
    obtain ⟨-, -, -, hm, ho⟩ := scanOf_inv p argv
    exact ⟨(parse_optmap_eq p argv).trans hm, (parse_options_eq p argv).trans ho⟩
  · intro st argv
    exact C.args_parse_pres st argv
